import Mathlib

/-!
Verification of the personalization ranking and selection engine of the
news-mvp repository: the top-K selector and batch orchestrator
(src/news_pipeline.py), the relevance scorer and adaptive weight store
(src/prioritizer.py), the preference learner (src/feedback_system.py),
and the fetch-stage deduplication (src/news_fetcher.py).

Python floats are modelled by exact rationals (ℚ) where the code only
adds, multiplies and compares decimal constants, and by ℝ where the code
uses transcendental functions (exp, log, pow in the scorer). Python dicts
keyed by strings are modelled by association lists in insertion order,
and Python exceptions by Except.
-/

/-! ## Data model for the selector (news_pipeline.py) -/

/-- One classified article as the dict consumed by
SmartNewsPipeline._select_top_articles_for_user: the fields the selector
reads via .get. Relevance is ℚ (exact model of the float). -/
structure Article where
  title : String
  category : String
  sports_subcategory : Option String
  economy_subcategory : Option String
  tech_subcategory : Option String
  relevance_score : ℚ
deriving DecidableEq, Repr

/-- One entry of the user interest list: either a bare category string or
a dict mapping main categories to lists of specific subcategories
(modelled as an association list in insertion order). -/
inductive Interest where
  | cat : String → Interest
  | dict : List (String × List String) → Interest
deriving DecidableEq, Repr

/-- The user profile dict after _convert_user_profile_to_dict: the keys
the selector reads. -/
structure UserProfile where
  user_id : String
  interests : List Interest
deriving Repr

/-- MIN_RELEVANCE_THRESHOLD = 0.40 in _select_top_articles_for_user. -/
def MIN_RELEVANCE_THRESHOLD : ℚ := 2/5

/-- The three subcategory fields probed by the selector
(article.get of sports_subcategory, economy_subcategory,
tech_subcategory) compared against the subcategory string: the Python
membership test subcategory in article_subcats. -/
def matchesSubcat (a : Article) (s : String) : Bool :=
  [a.sports_subcategory, a.economy_subcategory, a.tech_subcategory].contains (some s)

/-- Descending order on relevance_score used by every
sort by relevance reverse=True in the selector. -/
def relDesc (a b : Article) : Prop := b.relevance_score ≤ a.relevance_score

instance : DecidableRel relDesc :=
  fun a b => inferInstanceAs (Decidable (b.relevance_score ≤ a.relevance_score))

instance : IsTotal Article relDesc := ⟨fun a b => le_total b.relevance_score a.relevance_score⟩

instance : IsTrans Article relDesc := ⟨fun _ _ _ h h2 => le_trans h2 h⟩

/-- Descending order on a preference function, used when the selector
sorts subcategories and main categories by
feedback_system.get_user_preference (stable descending sort). -/
def prefDesc (p : String → ℚ) (s t : String) : Prop := p t ≤ p s

instance (p : String → ℚ) : DecidableRel (prefDesc p) :=
  fun s t => inferInstanceAs (Decidable (p t ≤ p s))

/-- Mutable loop state of the selector: selected_articles and the
seen_titles set (as the list of lowercased titles in insertion order). -/
structure SelState where
  sel : List Article
  seen : List String
deriving Repr

/-- The per-article acceptance test inside both guarantee passes:
title not seen, fewer than 7 selected, and relevance at or above the
0.40 guarantee threshold. -/
def passCheck (st : SelState) (a : Article) : Bool :=
  !(st.seen.contains a.title.toLower) && decide (st.sel.length < 7)
    && decide (MIN_RELEVANCE_THRESHOLD ≤ a.relevance_score)

/-- One guarantee pass over one subcategory or main category: sort the
matching candidates by descending relevance and add the first unique one
meeting the threshold (the inner for loop with break of the source). -/
def guaranteeStep (candidates : List Article) (st : SelState) : SelState :=
  match (List.insertionSort relDesc candidates).find? (passCheck st) with
  | some a => ⟨st.sel ++ [a], st.seen ++ [a.title.toLower]⟩
  | none => st

/-- Main categories: the bare-string entries of the interest list,
in order. -/
def mainCategoriesOf (interests : List Interest) : List String :=
  interests.filterMap fun it =>
    match it with
    | .cat s => some s
    | .dict _ => none

/-- Specific subcategories: flattened from all dict-form interests.
The source accumulates them into a Python set and later iterates
list(set); the iteration order of a Python set is unspecified, and we
fix it to first-insertion order (eraseDups keeps first occurrences). -/
def specificSubcatsOf (interests : List Interest) : List String :=
  (interests.flatMap fun it =>
    match it with
    | .cat _ => []
    | .dict entries => entries.flatMap Prod.snd).eraseDups

/-- Step 1 of the selector: one guarantee pass per specific subcategory,
in the given order. -/
def subcatPass (pool : List Article) (subs : List String) (st : SelState) : SelState :=
  subs.foldl (fun st s => guaranteeStep (pool.filter fun a => matchesSubcat a s) st) st

/-- Step 2 of the selector: one guarantee pass per main category, in the
given order. -/
def mainCatPass (pool : List Article) (cats : List String) (st : SelState) : SelState :=
  cats.foldl (fun st c => guaranteeStep (pool.filter fun a => a.category == c) st) st

/-- Sort a list of interest keys by descending learned preference when
the feedback system is present, as the source does with
feedback_system.get_user_preference; identity otherwise. -/
def sortByPreference (fb : Option (String → ℚ)) (keys : List String) : List String :=
  match fb with
  | some p => List.insertionSort (prefDesc p) keys
  | none => keys

/-- SmartNewsPipeline._select_top_articles_for_user. The feedback
argument models self.feedback_system.get_user_preference for this user
when the feedback system is present. The filler pass of the source
(step 3) evaluates classified_news_list.values() although
classified_news_list is a list, which raises AttributeError; we model
that raised exception as Except.error. -/
def select_top_articles_for_user (pool : List Article) (prof : UserProfile)
    (fb : Option (String → ℚ)) : Except Unit (List Article) :=
  let st := subcatPass pool (sortByPreference fb (specificSubcatsOf prof.interests)) ⟨[], []⟩
  let st := mainCatPass pool (sortByPreference fb (mainCategoriesOf prof.interests)) st
  if st.sel.length < 7 then
    .error ()  -- classified_news_list.values() on a list: AttributeError
  else
    .ok (List.insertionSort relDesc (st.sel.take 7))

/-! ## Batch orchestrator cache upsert (news_pipeline.py, generate_and_cache_bundles_for_all_users) -/

/-- One row of the user_news_cache table. The composite primary key is
(user_id, news_date). news_bundle holds the prepared top-7 list; with
articles modelled by Article, the ai_analysis promotion step of the
source is the identity, so the bundle is the selection itself.
generated_at is an abstract timestamp. -/
structure CacheRow where
  user_id : ℕ
  news_date : ℕ
  news_bundle : List Article
  generated_at : ℕ
deriving DecidableEq, Repr

/-- The WHERE clause of the cache lookup: user_id and news_date match. -/
def rowKeyMatches (uid d : ℕ) (r : CacheRow) : Bool :=
  r.user_id == uid && r.news_date == d

/-- The cache-upsert step of the source: look up the existing row for
(user_id, today); update its news_bundle and generated_at when present,
otherwise add a new row. -/
def upsert_user_cache (cache : List CacheRow) (uid d : ℕ) (b : List Article)
    (now : ℕ) : List CacheRow :=
  if cache.any (rowKeyMatches uid d) then
    cache.map fun r =>
      if rowKeyMatches uid d r then ⟨r.user_id, r.news_date, b, now⟩ else r
  else cache ++ [⟨uid, d, b, now⟩]

/-- At most one cache row per (user_id, news_date) key: the invariant
enforced by the composite primary key of user_news_cache. -/
def KeyUnique (cache : List CacheRow) : Prop :=
  (cache.map fun r => (r.user_id, r.news_date)).Nodup

/-- One user row as read by get_all_users_from_db: id plus optional
profile. -/
structure UserData where
  id : ℕ
  profile : Option UserProfile

/-- The body of the per-user for loop of
generate_and_cache_bundles_for_all_users, run over the whole user list
inside the single try block of the source: a user without profile is
skipped (continue); a raised exception anywhere (here: the selector
failing) escapes the loop as Except.error. -/
def processUsers (pool : List Article) (fb : Option (String → ℚ)) (today now : ℕ) :
    List CacheRow → List UserData → Except Unit (List CacheRow)
  | session, [] => .ok session
  | session, u :: rest =>
    match u.profile with
    | none => processUsers pool fb today now session rest
    | some prof =>
      match select_top_articles_for_user pool prof fb with
      | .error _ => .error ()
      | .ok top7 =>
        processUsers pool fb today now (upsert_user_cache session u.id today top7 now) rest

/-- SmartNewsPipeline.generate_and_cache_bundles_for_all_users: early
returns on empty news list or empty user list; then one try/except
around the whole per-user loop — on success the session is committed,
on any exception the whole session is rolled back (the cache is left as
it was). -/
def generate_and_cache_bundles_for_all_users (cache : List CacheRow)
    (users : List UserData) (pool : List Article) (fb : Option (String → ℚ))
    (today now : ℕ) : List CacheRow :=
  if pool.isEmpty then cache
  else if users.isEmpty then cache
  else
    match processUsers pool fb today now cache users with
    | .ok session => session
    | .error _ => cache

/-! ## Fetch-stage deduplication (news_fetcher.py, SmartNewsFetcher._deduplicate_articles) -/

/-- One raw fetched article: the fields _deduplicate_articles reads. -/
structure RawArticle where
  title : String
  content : String
deriving DecidableEq, Repr

/-- The dedup key on titles: article title lowercased then stripped. -/
def dedupTitleKey (a : RawArticle) : String := a.title.toLower.trim

/-- The dedup key on content: the first 200 characters of the content;
the md5 hexdigest applied to it is modelled by the hash parameter. -/
def dedupContentKey (a : RawArticle) : String := a.content.take 200

/-- The loop of _deduplicate_articles: keep an article when its title
key is unseen, its content-hash is unseen, and the title key is longer
than 15 characters; record both keys when kept. -/
def deduplicate_articles_go (hash : String → String) :
    List RawArticle → List String → List String → List RawArticle
  | [], _, _ => []
  | a :: rest, seenTitles, seenHashes =>
    if !(seenTitles.contains (dedupTitleKey a)) && !(seenHashes.contains (hash (dedupContentKey a)))
        && decide (15 < (dedupTitleKey a).length) then
      a :: deduplicate_articles_go hash rest (seenTitles ++ [dedupTitleKey a])
        (seenHashes ++ [hash (dedupContentKey a)])
    else
      deduplicate_articles_go hash rest seenTitles seenHashes

/-- SmartNewsFetcher._deduplicate_articles. -/
def deduplicate_articles (hash : String → String) (articles : List RawArticle) :
    List RawArticle :=
  deduplicate_articles_go hash articles [] []

/-! ## Preference learner (feedback_system.py, FeedbackSystem._update_user_preferences) -/

/-- Python round(x, 3): round to 3 decimal places. Python rounds halves
to even digits while round here rounds halves up; the two agree away
from exact half-thousandths, and every preference the system stores is
an exact multiple of 1/1000, where both are the identity. -/
def round3 (q : ℚ) : ℚ := ((round (1000 * q) : ℤ) : ℚ) / 1000

/-- The preference update of _update_user_preferences for one feedback
event, acting on the current score (default 0.5): +0.1 capped at 1 on
like, -0.1 floored at 0 on dislike, 0.05 drift toward 0.5 on neutral;
the stored value is rounded to 3 decimals. -/
def update_preference (current_score : ℚ) (rating : ℤ) : ℚ :=
  if 0 < rating then round3 (min 1 (current_score + 0.1))
  else if rating < 0 then round3 (max 0 (current_score - 0.1))
  else if 0.5 < current_score then round3 (current_score - 0.05)
  else round3 (current_score + 0.05)

/-- Preference after n consecutive dislikes starting from the neutral
default 0.5. -/
def preference_after_dislikes : ℕ → ℚ
  | 0 => 0.5
  | n + 1 => update_preference (preference_after_dislikes n) (-1)

/-- Preference after n consecutive likes starting from the neutral
default 0.5. -/
def preference_after_likes : ℕ → ℚ
  | 0 => 0.5
  | n + 1 => update_preference (preference_after_likes n) 1

/-! ## Adaptive weight store (prioritizer.py, AdaptiveRankerWeights) -/

/-- One record of feedback_history as used by _adapt_weights: the user
rating (-1, 0, +1) and the predicted relevance score (0-100). -/
structure FeedbackRec where
  user_rating : ℤ
  predicted_score : ℤ
deriving DecidableEq, Repr

/-- The six adaptive weight multipliers of one user. -/
structure Multipliers where
  w_hint : ℚ
  w_conf : ℚ
  w_cat : ℚ
  w_sub : ℚ
  w_locale : ℚ
  w_crit : ℚ
deriving DecidableEq, Repr

/-- _get_default_multipliers: all 1.0. -/
def get_default_multipliers : Multipliers := ⟨1, 1, 1, 1, 1, 1⟩

/-- The clamp of each multiplier to [0.5, 2.0] at the end of
_adjust_weight_multipliers: max(0.5, min(2.0, x)). -/
def clampMult (q : ℚ) : ℚ := max 0.5 (min 2 q)

/-- Multiply every multiplier by one factor (the loops over
self.adaptive_multipliers in _adjust_weight_multipliers). -/
def scaleAll (m : Multipliers) (f : ℚ) : Multipliers :=
  ⟨m.w_hint * f, m.w_conf * f, m.w_cat * f, m.w_sub * f, m.w_locale * f, m.w_crit * f⟩

/-- Clamp every multiplier to [0.5, 2.0]. -/
def clampAll (m : Multipliers) : Multipliers :=
  ⟨clampMult m.w_hint, clampMult m.w_conf, clampMult m.w_cat, clampMult m.w_sub,
   clampMult m.w_locale, clampMult m.w_crit⟩

/-- AdaptiveRankerWeights._adjust_weight_multipliers: shrink all by 5%
when accuracy < 0.6, grow all by 2% when accuracy > 0.8; then shrink
category and subcategory multipliers by 10% when the negative rate
exceeds 0.4, or grow them by 5% when the positive rate exceeds 0.6;
finally clamp every multiplier to [0.5, 2.0]. -/
def adjust_weight_multipliers (m : Multipliers) (accuracy pos_rate neg_rate : ℚ) :
    Multipliers :=
  let m1 := if accuracy < 0.6 then scaleAll m 0.95
            else if 0.8 < accuracy then scaleAll m 1.02
            else m
  let m2 := if 0.4 < neg_rate then
              ⟨m1.w_hint, m1.w_conf, m1.w_cat * 0.9, m1.w_sub * 0.9, m1.w_locale, m1.w_crit⟩
            else if 0.6 < pos_rate then
              ⟨m1.w_hint, m1.w_conf, m1.w_cat * 1.05, m1.w_sub * 1.05, m1.w_locale, m1.w_crit⟩
            else m1
  clampAll m2

/-- The accuracy test of _adapt_weights: the predicted score fell in the
bucket expected for the observed rating (positive: 70-100,
negative: 0-30, neutral: 40-60). -/
def inExpectedRange (f : FeedbackRec) : Bool :=
  if 0 < f.user_rating then
    decide (70 ≤ f.predicted_score) && decide (f.predicted_score ≤ 100)
  else if f.user_rating < 0 then
    decide (0 ≤ f.predicted_score) && decide (f.predicted_score ≤ 30)
  else
    decide (40 ≤ f.predicted_score) && decide (f.predicted_score ≤ 60)

/-- AdaptiveRankerWeights._adapt_weights: no-op below 5 feedback events;
otherwise compute positive/negative rates and prediction accuracy over
the most recent 20 events and call _adjust_weight_multipliers. -/
def adapt_weights (hist : List FeedbackRec) (m : Multipliers) : Multipliers :=
  if hist.length < 5 then m
  else
    let recent := hist.drop (hist.length - 20)
    let total := recent.length
    let pos_rate : ℚ :=
      if 0 < total then ((recent.filter fun f => decide (0 < f.user_rating)).length : ℚ) / total
      else 0
    let neg_rate : ℚ :=
      if 0 < total then ((recent.filter fun f => decide (f.user_rating < 0)).length : ℚ) / total
      else 0
    let accuracy : ℚ :=
      if 0 < total then ((recent.filter inExpectedRange).length : ℚ) / total
      else 0.5
    adjust_weight_multipliers m accuracy pos_rate neg_rate

/-- The state of one user's AdaptiveRankerWeights instance together with
this user's entry of the adaptive_weights.json file: feedback_history,
in-memory adaptive_multipliers, and the persisted entry (none when the
file has no entry for the user). -/
structure AState where
  feedback_history : List FeedbackRec
  adaptive_multipliers : Multipliers
  weights_file : Option Multipliers
deriving Repr

/-- _load_adaptive_weights: the persisted entry when present, else the
defaults. -/
def load_adaptive_weights (file : Option Multipliers) : Multipliers :=
  file.getD get_default_multipliers

/-- AdaptiveRankerWeights.record_feedback: append the record; when the
total history holds at least 5 events, run _adapt_weights and persist
the result (_save_adaptive_weights). The Bool reports whether an
adaptation was performed by this call. -/
def record_feedback (s : AState) (f : FeedbackRec) : AState × Bool :=
  let hist := s.feedback_history ++ [f]
  if 5 ≤ hist.length then
    let m := adapt_weights hist s.adaptive_multipliers
    (⟨hist, m, some m⟩, true)
  else
    (⟨hist, s.adaptive_multipliers, s.weights_file⟩, false)

/-- Run record_feedback over a list of events, counting how many calls
performed an adaptation. -/
def record_feedback_run : AState → List FeedbackRec → AState × ℕ
  | s, [] => (s, 0)
  | s, f :: fs =>
    let p := record_feedback s f
    let q := record_feedback_run p.1 fs
    (q.1, (if p.2 then 1 else 0) + q.2)

/-- The states reachable by the adaptive weight store for one user:
a fresh store (empty history, default multipliers, no persisted entry),
any number of record_feedback calls, and re-construction of the
instance from the persisted file (__init__ calling
_load_adaptive_weights). -/
inductive AReach : AState → Prop where
  | init : AReach ⟨[], get_default_multipliers, none⟩
  | record (s : AState) (f : FeedbackRec) : AReach s → AReach (record_feedback s f).1
  | reload (s : AState) : AReach s →
      AReach ⟨[], load_adaptive_weights s.weights_file, s.weights_file⟩

/-- Every multiplier lies in [0.5, 2.0]. -/
def multsInRange (m : Multipliers) : Prop :=
  (0.5 ≤ m.w_hint ∧ m.w_hint ≤ 2) ∧ (0.5 ≤ m.w_conf ∧ m.w_conf ≤ 2) ∧
  (0.5 ≤ m.w_cat ∧ m.w_cat ≤ 2) ∧ (0.5 ≤ m.w_sub ∧ m.w_sub ≤ 2) ∧
  (0.5 ≤ m.w_locale ∧ m.w_locale ≤ 2) ∧ (0.5 ≤ m.w_crit ∧ m.w_crit ≤ 2)

/-! ## Relevance scorer (prioritizer.py, adjust_priority) -/

/-- prioritizer.sigmoid. -/
noncomputable def sigmoid (z : ℝ) : ℝ :=
  if 0 ≤ z then 1 / (1 + Real.exp (-z))
  else Real.exp z / (1 + Real.exp z)

/-- prioritizer.logit with its default eps = 1e-6. -/
noncomputable def logit (p : ℝ) : ℝ :=
  let q := min (max p 0.000001) (1 - 0.000001)
  Real.log (q / (1 - q))

/-- prioritizer.clamp: max(lo, min(hi, v)). -/
noncomputable def clamp (v lo hi : ℝ) : ℝ := max lo (min hi v)

/-- RankerWeights with the default values of its fields (the
environment-variable overrides of the source are fixed to their
defaults). -/
structure RankerWeights where
  bias : ℝ := -1.386294361
  w_hint : ℝ := 1.8
  w_conf : ℝ := 1.2
  w_cat : ℝ := 1.1
  w_sub : ℝ := 1.6
  w_locale : ℝ := 0.5
  w_crit : ℝ := 0.9
  gamma : ℝ := 0.95

noncomputable def defaultRankerWeights : RankerWeights := {}

/-- The classification dict as read by adjust_priority, after the .get
defaults were applied (importance_score default 50, confidence default
0.7, reasons default the empty string). -/
structure Classification where
  importance_score : ℤ
  confidence : ℝ
  category : String
  sports_subcategory : Option String
  economy_subcategory : Option String
  tech_subcategory : Option String
  reasons : String

/-- The user object as read by adjust_priority via getattr. -/
structure ScoringUser where
  interests : List Interest
  locale : Option String
  city : Option String

/-- prioritizer.SYNONYMS. -/
def SYNONYMS : List (String × String) :=
  [("premier_league", "football_epl"), ("football_premier_league", "football_epl"),
   ("epl", "football_epl"), ("bundesliga", "football_bundesliga"),
   ("la_liga", "football_laliga")]

/-- prioritizer._norm_sub on a present, non-empty string: lowercase then
apply the synonym table. -/
def norm_sub_str (v : String) : String :=
  (SYNONYMS.lookup v.toLower).getD v.toLower

/-- prioritizer._norm_sub: falsy values (None, empty string) pass
through unchanged. -/
def norm_sub : Option String → Option String
  | none => none
  | some v => if v = "" then some v else some (norm_sub_str v)

/-- prioritizer._match_category_interest: the category appears as a bare
string interest or as a key of a dict interest. -/
def match_category_interest (category : String) (interests : List Interest) : Bool :=
  interests.any fun it =>
    match it with
    | .cat s => s == category
    | .dict entries => entries.any fun e => e.1 == category

/-- prioritizer._match_sub_interest: a falsy subcategory never matches;
otherwise normalize it and look for it among the normalized
subcategories listed under the matching category of a dict interest. -/
def match_sub_interest (category : String) (sub : Option String)
    (interests : List Interest) : Bool :=
  match sub with
  | none => false
  | some v =>
    if v = "" then false
    else
      let s := norm_sub_str v
      interests.any fun it =>
        match it with
        | .cat _ => false
        | .dict entries =>
          entries.any fun e => e.1 == category && (e.2.map norm_sub_str).contains s

/-- Whether the needle list occurs at the head of the hay list. -/
def matchesAt : List Char → List Char → Bool
  | [], _ => true
  | _ :: _, [] => false
  | c :: cs, d :: ds => c == d && matchesAt cs ds

/-- Whether the needle occurs contiguously anywhere in the hay: the
Python substring test needle in hay. -/
def containsSub (needle : List Char) : List Char → Bool
  | [] => needle.isEmpty
  | d :: ds => matchesAt needle (d :: ds) || containsSub needle ds

/-- Python needle in hay on strings. -/
def strIn (needle hay : String) : Bool := containsSub needle.data hay.data

/-- The haystack of _locale_match and _criticality_signal:
" ".join(filter(None, [reasons, news_text])), lowercased. -/
def mkHay (reasons : String) (news_text : Option String) : String :=
  (String.intercalate " " (([reasons, news_text.getD ""]).filter (· != ""))).toLower

/-- prioritizer.CRITICAL_TOKENS. -/
def CRITICAL_TOKENS : List String :=
  ["final", "game 7", "grand slam", "record", "all-time", "pandemic", "sanction",
   "sanctions", "war", "default", "ban", "historic", "emergency",
   "state of emergency", "evacuation", "championship"]

/-- prioritizer._criticality_signal. -/
def criticality_signal (reasons : String) (news_text : Option String) : Bool :=
  let hay := mkHay reasons news_text
  CRITICAL_TOKENS.any fun tok => strIn tok hay

/-- prioritizer._locale_match: the lowercased locale or city occurs in
the haystack; falsy locale and city never match. -/
def locale_match (reasons : String) (news_text : Option String)
    (user_locale city : Option String) : Bool :=
  let hay := mkHay reasons news_text
  (match user_locale with
   | some l => l != "" && strIn l.toLower hay
   | none => false) ||
  (match city with
   | some c => c != "" && strIn c.toLower hay
   | none => false)

/-- prioritizer.adjust_priority with resolved weights (for adaptive
weights the source first resolves current_weights via
get_current_weights; static weights are used as given). Returns the
integer score 0-100: int(round(100 * clamp(sigmoid(z)^gamma, 0, 1))).
Python round rounds halves to even while round here rounds halves up;
the bounds proved below hold under either convention. -/
noncomputable def adjust_priority (c : Classification) (u : ScoringUser)
    (news_text : Option String) (w : RankerWeights) : ℤ :=
  let p_hint := clamp ((c.importance_score : ℝ) / 100) 0.01 0.99
  let conf := c.confidence
  let sports_sub := norm_sub c.sports_subcategory
  let econ_sub := c.economy_subcategory.map String.toLower
  let tech_sub := c.tech_subcategory.map String.toLower
  let z : ℝ := w.bias + w.w_hint * logit p_hint
    + w.w_conf * (conf - 0.5) * 2
    + (if match_category_interest c.category u.interests then w.w_cat else 0)
    + (if c.category == "sports" && match_sub_interest "sports" sports_sub u.interests
       then w.w_sub else 0)
    + (if c.category == "economy_finance"
          && match_sub_interest "economy_finance" econ_sub u.interests
       then w.w_sub else 0)
    + (if c.category == "technology_ai_science"
          && match_sub_interest "technology_ai_science" tech_sub u.interests
       then w.w_sub else 0)
    + (if locale_match c.reasons news_text u.locale u.city then
         (if 0.6 < conf ∨ criticality_signal c.reasons news_text then w.w_locale
          else w.w_locale * 0.2)
       else 0)
    + (if criticality_signal c.reasons news_text then w.w_crit else 0)
  let p := sigmoid z
  let p_cal := p ^ w.gamma
  round (100 * clamp p_cal 0 1)

/-- get_current_weights: the base weights with the adaptive multipliers
applied (bias and gamma unscaled). -/
noncomputable def get_current_weights (s : AState) : RankerWeights :=
  let base := defaultRankerWeights
  let m := s.adaptive_multipliers
  ⟨base.bias, base.w_hint * (m.w_hint : ℝ), base.w_conf * (m.w_conf : ℝ),
   base.w_cat * (m.w_cat : ℝ), base.w_sub * (m.w_sub : ℝ),
   base.w_locale * (m.w_locale : ℝ), base.w_crit * (m.w_crit : ℝ), base.gamma⟩

/-! ## Concrete inputs used by the witnesses and counterexamples -/

/-- A sports article tagged with one specific subcategory. -/
def mkSportsArticle (t s : String) (r : ℚ) : Article :=
  ⟨t, "sports", some s, none, none, r⟩

/-- An article in a bare main category, with no subcategory tags. -/
def mkCatArticle (t c : String) (r : ℚ) : Article :=
  ⟨t, c, none, none, none, r⟩

/-- Seven sports articles with distinct titles and subcategories s1-s7,
all scoring 0.5. -/
def pool7 : List Article :=
  [mkSportsArticle "Alpha match report" "s1" 0.5,
   mkSportsArticle "Bravo match report" "s2" 0.5,
   mkSportsArticle "Charlie match report" "s3" 0.5,
   mkSportsArticle "Delta match report" "s4" 0.5,
   mkSportsArticle "Echo match report" "s5" 0.5,
   mkSportsArticle "Foxtrot match report" "s6" 0.5,
   mkSportsArticle "Golf match report" "s7" 0.5]

/-- A profile interested in the seven specific subcategories s1-s7. -/
def prof7 : UserProfile :=
  ⟨"u1", [.dict [("sports", ["s1", "s2", "s3", "s4", "s5", "s6", "s7"])]]⟩

/-- A profile with no interests at all. -/
def profEmpty : UserProfile := ⟨"u2", []⟩

/-- One article scoring 0.3, below the 0.40 guarantee threshold. -/
def poolLow : List Article := [mkSportsArticle "Low relevance story" "s1" 0.3]

/-- Eight sports articles with distinct titles and subcategories s1-s8,
all scoring 0.5. -/
def pool8 : List Article :=
  pool7 ++ [mkSportsArticle "Hotel match report" "s8" 0.5]

/-- A profile interested in eight specific subcategories s1-s8. -/
def prof8 : UserProfile :=
  ⟨"u3", [.dict [("sports", ["s1", "s2", "s3", "s4", "s5", "s6", "s7", "s8"])]]⟩

/-- A profile with one specific subcategory interest (s1) and six bare
main-category interests c1-c6. -/
def profC5 : UserProfile :=
  ⟨"u4", [.dict [("sports", ["s1"])], .cat "c1", .cat "c2", .cat "c3",
          .cat "c4", .cat "c5", .cat "c6"]⟩

/-- A pool for the C5 witness: one s1-tagged sports article above the
threshold plus one article in each of the main categories c1-c6. -/
def poolC5 : List Article :=
  [mkSportsArticle "Alpha match report" "s1" 0.5,
   mkCatArticle "November brief" "c1" 0.5,
   mkCatArticle "Oscar brief" "c2" 0.5,
   mkCatArticle "Papa brief" "c3" 0.5,
   mkCatArticle "Quebec brief" "c4" 0.5,
   mkCatArticle "Romeo brief" "c5" 0.5,
   mkCatArticle "Sierra brief" "c6" 0.5]

/-- Three users: users 1 and 3 have profiles whose bundles succeed,
user 2 has a profile on which the selector raises. -/
def users123 : List UserData :=
  [⟨1, some prof7⟩, ⟨2, some profEmpty⟩, ⟨3, some prof7⟩]

instance {e a : Type} [DecidableEq e] [DecidableEq a] : DecidableEq (Except e a) := fun x y =>
  match x, y with
  | .error u, .error v =>
    if h : u = v then isTrue (congrArg Except.error h)
    else isFalse fun he => h (Except.error.inj he)
  | .ok u, .ok v =>
    if h : u = v then isTrue (congrArg Except.ok h)
    else isFalse fun he => h (Except.ok.inj he)
  | .error _, .ok _ => isFalse fun he => Except.noConfusion he
  | .ok _, .error _ => isFalse fun he => Except.noConfusion he

/-- The loop invariant of the selector: at most 7 articles selected, no
two selected articles share a lowercased title, and every selected
title is recorded in seen_titles. -/
def SelInv (st : SelState) : Prop :=
  st.sel.length ≤ 7 ∧ (st.sel.map fun a => a.title.toLower).Nodup ∧
    ∀ a ∈ st.sel, a.title.toLower ∈ st.seen

/-- One s1-tagged article above the threshold, alone in the pool. -/
def poolA : List Article := [mkSportsArticle "Alpha match report" "s1" 0.5]

/-- A profile whose only interest is the specific subcategory s1. -/
def profA : UserProfile := ⟨"uA", [.dict [("sports", ["s1"])]]⟩

/-- The classification used by the C2 counterexample: importance 99,
confidence 0.7, a category matching no interest, no subcategories, no
reasons text. -/
noncomputable def c2cls : Classification := ⟨99, 0.7, "general", none, none, none, ""⟩

/-- The user used by the C2 counterexample: no interests, no locale, no
city. -/
def c2user : ScoringUser := ⟨[], none, none⟩

/-! ## Lemmas and claim theorems -/

theorem passCheck_spec {st : SelState} {a : Article} (h : passCheck st a = true) :
    a.title.toLower ∉ st.seen ∧ st.sel.length < 7 ∧
      MIN_RELEVANCE_THRESHOLD ≤ a.relevance_score := by
  simp only [passCheck, List.elem_eq_mem, Bool.and_eq_true,
    Bool.not_eq_true', decide_eq_true_eq, decide_eq_false_iff_not] at h
  exact ⟨h.1.1, h.1.2, h.2⟩

theorem guaranteeStep_inv (cands : List Article) {st : SelState} (h : SelInv st) :
    SelInv (guaranteeStep cands st) := by
  unfold guaranteeStep
  cases hf : (List.insertionSort relDesc cands).find? (passCheck st) with
  | none => exact h
  | some a =>
    obtain ⟨hseen, hlen, _⟩ := passCheck_spec (List.find?_some hf)
    refine ⟨?_, ?_, ?_⟩
    · simp only [List.length_append, List.length_cons, List.length_nil]
      omega
    · simp only [List.map_append, List.map_cons, List.map_nil]
      rw [List.nodup_append]
      refine ⟨h.2.1, List.nodup_singleton _, ?_⟩
      intro x hx hx2
      simp only [List.mem_singleton] at hx2
      subst hx2
      obtain ⟨b, hb, hbx⟩ := List.mem_map.1 hx
      exact hseen (hbx ▸ h.2.2 b hb)
    · intro b hb
      rcases List.mem_append.1 hb with hb | hb
      · exact List.mem_append.2 (Or.inl (h.2.2 b hb))
      · simp only [List.mem_singleton] at hb
        subst hb
        exact List.mem_append.2 (Or.inr (List.mem_singleton.2 rfl))

theorem foldl_preserves {β : Type} (g : SelState → β → SelState) (P : SelState → Prop)
    (hg : ∀ st x, P st → P (g st x)) :
    ∀ (l : List β) (st : SelState), P st → P (l.foldl g st)
  | [], _, h => h
  | x :: l, st, h => foldl_preserves g P hg l (g st x) (hg st x h)

theorem subcatPass_inv (pool : List Article) (subs : List String) {st : SelState}
    (h : SelInv st) : SelInv (subcatPass pool subs st) :=
  foldl_preserves _ SelInv (fun _ _ hi => guaranteeStep_inv _ hi) subs st h

theorem mainCatPass_inv (pool : List Article) (cats : List String) {st : SelState}
    (h : SelInv st) : SelInv (mainCatPass pool cats st) :=
  foldl_preserves _ SelInv (fun _ _ hi => guaranteeStep_inv _ hi) cats st h

theorem guaranteeStep_sel_extend (cands : List Article) (st : SelState) :
    ∃ t, (guaranteeStep cands st).sel = st.sel ++ t := by
  unfold guaranteeStep
  cases hf : (List.insertionSort relDesc cands).find? (passCheck st) with
  | none => exact ⟨[], (List.append_nil _).symm⟩
  | some a => exact ⟨[a], rfl⟩

theorem foldl_sel_extend {β : Type} (g : SelState → β → SelState)
    (hg : ∀ st x, ∃ t, (g st x).sel = st.sel ++ t) :
    ∀ (l : List β) (st : SelState), ∃ t, (l.foldl g st).sel = st.sel ++ t
  | [], st => ⟨[], (List.append_nil _).symm⟩
  | x :: l, st => by
    obtain ⟨t1, ht1⟩ := hg st x
    obtain ⟨t2, ht2⟩ := foldl_sel_extend g hg l (g st x)
    exact ⟨t1 ++ t2, by rw [List.foldl_cons, ht2, ht1, List.append_assoc]⟩

theorem mainCatPass_sel_extend (pool : List Article) (cats : List String) (st : SelState) :
    ∃ t, (mainCatPass pool cats st).sel = st.sel ++ t :=
  foldl_sel_extend _ (fun st _ => guaranteeStep_sel_extend _ st) cats st

theorem guaranteeStep_below (cands : List Article) (st : SelState)
    (h : ∀ a ∈ cands, a.relevance_score < MIN_RELEVANCE_THRESHOLD) :
    guaranteeStep cands st = st := by
  unfold guaranteeStep
  have hnone : (List.insertionSort relDesc cands).find? (passCheck st) = none := by
    rw [List.find?_eq_none]
    intro x hx
    have hx2 : x ∈ cands := (List.perm_insertionSort relDesc cands).mem_iff.1 hx
    simp only [passCheck, Bool.and_eq_true, decide_eq_true_eq, not_and]
    intro _
    exact not_le.mpr (h x hx2)
  rw [hnone]

theorem foldl_fix {β : Type} (g : SelState → β → SelState)
    (hg : ∀ st x, g st x = st) :
    ∀ (l : List β) (st : SelState), l.foldl g st = st
  | [], _ => rfl
  | x :: l, st => by rw [List.foldl_cons, hg st x, foldl_fix g hg l st]

/-- Claim C1 (code defect): when every candidate scores below the 0.40
guarantee threshold, both guarantee passes select nothing, the selector
reaches the filler pass with fewer than 7 selected, and the filler pass
raises AttributeError (classified_news_list.values() on a list) instead
of filling the bundle: no bundle is produced at all, contradicting the
spec sentence that selection never returns an empty bundle while any
unique article exists. -/
theorem C1_filler_pass_raises (pool : List Article) (prof : UserProfile)
    (fb : Option (String → ℚ)) (hne : pool ≠ [])
    (hlow : ∀ a ∈ pool, a.relevance_score < MIN_RELEVANCE_THRESHOLD) :
    select_top_articles_for_user pool prof fb = .error () := by
  have hstep : ∀ (st : SelState) (p : Article → Bool),
      guaranteeStep (pool.filter p) st = st := fun st p =>
    guaranteeStep_below _ _ fun a ha => hlow a (List.mem_of_mem_filter ha)
  simp only [select_top_articles_for_user]
  rw [show subcatPass pool (sortByPreference fb (specificSubcatsOf prof.interests)) ⟨[], []⟩
      = (⟨[], []⟩ : SelState) from foldl_fix _ (fun st s => hstep st _) _ _]
  rw [show mainCatPass pool (sortByPreference fb (mainCategoriesOf prof.interests)) ⟨[], []⟩
      = (⟨[], []⟩ : SelState) from foldl_fix _ (fun st c => hstep st _) _ _]
  simp

/-- Claim C4: whenever the selector returns a bundle, it has at most 7
articles, no two share a lowercased title, and it is sorted by
descending relevance. -/
theorem C4_selector_output (pool : List Article) (prof : UserProfile)
    (fb : Option (String → ℚ)) (out : List Article)
    (h : select_top_articles_for_user pool prof fb = .ok out) :
    out.length ≤ 7 ∧ (out.map fun a => a.title.toLower).Nodup ∧
      List.Sorted relDesc out := by
  simp only [select_top_articles_for_user] at h
  set st := mainCatPass pool (sortByPreference fb (mainCategoriesOf prof.interests))
    (subcatPass pool (sortByPreference fb (specificSubcatsOf prof.interests)) ⟨[], []⟩)
    with hst
  have hinv : SelInv st := by
    rw [hst]
    exact mainCatPass_inv _ _ (subcatPass_inv _ _ ⟨by simp, by simp, by simp⟩)
  split at h
  · exact absurd h (by simp)
  · have hout : out = List.insertionSort relDesc (st.sel.take 7) :=
      (Except.ok.inj h).symm
    have htake : st.sel.take 7 = st.sel := List.take_of_length_le hinv.1
    have hperm : List.Perm (List.insertionSort relDesc (st.sel.take 7)) st.sel := by
      rw [htake]; exact List.perm_insertionSort relDesc st.sel
    refine ⟨?_, ?_, ?_⟩
    · rw [hout, hperm.length_eq]
      exact hinv.1
    · rw [hout]
      exact ((hperm.map fun a => a.title.toLower).nodup_iff).2 hinv.2.1
    · rw [hout]
      exact List.sorted_insertionSort relDesc _

theorem sortByPreference_singleton (fb : Option (String → ℚ)) (s : String) :
    sortByPreference fb [s] = [s] := by
  cases fb <;> simp [sortByPreference, List.insertionSort, List.orderedInsert]

/-- Claim C5 (amended): when the profile has exactly one specific
subcategory interest s, some pool article tagged s reaches the 0.40
threshold, and the selector returns a bundle, then the bundle contains
an article tagged s at or above the threshold. -/
theorem C5_subcat_guarantee (pool : List Article) (prof : UserProfile)
    (fb : Option (String → ℚ)) (s : String)
    (h1 : specificSubcatsOf prof.interests = [s])
    (h2 : ∃ a ∈ pool, matchesSubcat a s = true ∧
      MIN_RELEVANCE_THRESHOLD ≤ a.relevance_score)
    (out : List Article)
    (h3 : select_top_articles_for_user pool prof fb = .ok out) :
    ∃ a ∈ out, matchesSubcat a s = true ∧
      MIN_RELEVANCE_THRESHOLD ≤ a.relevance_score := by
  obtain ⟨a0, ha0pool, ha0m, ha0r⟩ := h2
  simp only [select_top_articles_for_user, h1, sortByPreference_singleton] at h3
  rw [show subcatPass pool [s] ⟨[], []⟩ =
      guaranteeStep (pool.filter fun a => matchesSubcat a s) ⟨[], []⟩ from rfl] at h3
  set cands := List.insertionSort relDesc (pool.filter fun a => matchesSubcat a s)
    with hcands
  have ha0c : a0 ∈ cands := by
    rw [hcands]
    exact (List.perm_insertionSort relDesc _).mem_iff.2
      (List.mem_filter.2 ⟨ha0pool, ha0m⟩)
  have hpass : passCheck ⟨[], []⟩ a0 = true := by
    simp [passCheck, MIN_RELEVANCE_THRESHOLD]
    exact ha0r
  cases hf : cands.find? (passCheck ⟨[], []⟩) with
  | none =>
    exact absurd hpass (List.find?_eq_none.1 hf a0 ha0c)
  | some a1 =>
    have hstep : guaranteeStep (pool.filter fun a => matchesSubcat a s) ⟨[], []⟩ =
        ⟨[a1], [a1.title.toLower]⟩ := by
      unfold guaranteeStep
      rw [← hcands, hf]
      simp
    rw [hstep] at h3
    have ha1m : matchesSubcat a1 s = true := by
      have : a1 ∈ cands := List.mem_of_find?_eq_some hf
      rw [hcands] at this
      exact (List.mem_filter.1 ((List.perm_insertionSort relDesc _).mem_iff.1 this)).2
    have ha1r : MIN_RELEVANCE_THRESHOLD ≤ a1.relevance_score :=
      (passCheck_spec (List.find?_some hf)).2.2
    obtain ⟨t, ht⟩ := mainCatPass_sel_extend pool
      (sortByPreference fb (mainCategoriesOf prof.interests)) ⟨[a1], [a1.title.toLower]⟩
    split at h3
    · exact absurd h3 (by simp)
    · have hout : out = List.insertionSort relDesc
          ((mainCatPass pool (sortByPreference fb (mainCategoriesOf prof.interests))
            ⟨[a1], [a1.title.toLower]⟩).sel.take 7) := (Except.ok.inj h3).symm
      refine ⟨a1, ?_, ha1m, ha1r⟩
      rw [hout]
      apply (List.perm_insertionSort relDesc _).mem_iff.2
      rw [ht]
      simp [List.take_cons]

unseal Rat.mul Rat.inv Rat.add Rat.sub Rat.ofScientific String.mapAux in
theorem C1_witness :
    poolLow ≠ [] ∧
      (∀ a ∈ poolLow, a.relevance_score < MIN_RELEVANCE_THRESHOLD) ∧
      select_top_articles_for_user poolLow profA none = .error () :=
  ⟨by decide, by decide,
    C1_filler_pass_raises poolLow profA none (by decide) (by decide)⟩

unseal Rat.mul Rat.inv Rat.add Rat.sub Rat.ofScientific String.mapAux in
theorem C4_witness :
    pool7.length ≤ 7 ∧ (pool7.map fun a => a.title.toLower).Nodup ∧
      List.Sorted relDesc pool7 :=
  C4_selector_output pool7 prof7 none pool7 (by decide)

unseal Rat.mul Rat.inv Rat.add Rat.sub Rat.ofScientific String.mapAux in
theorem C5_witness :
    ∃ a ∈ poolC5, matchesSubcat a "s1" = true ∧
      MIN_RELEVANCE_THRESHOLD ≤ a.relevance_score :=
  C5_subcat_guarantee poolC5 profC5 none "s1" (by decide) (by decide) poolC5 (by decide)

unseal Rat.mul Rat.inv Rat.add Rat.sub Rat.ofScientific String.mapAux in
/-- Claim C5 (counterexample): the claim fails as stated. With one
matching subcategory interest and one qualifying article, the selector
raises in the filler pass instead of returning any selection; and with
eight qualifying subcategory interests s1-s8, the returned bundle of 7
contains no article tagged s8 although an s8 article scores above the
threshold. -/
theorem C5_counterexample :
    select_top_articles_for_user poolA profA none = .error () ∧
    ((specificSubcatsOf prof8.interests).contains "s8" = true ∧
      pool8.any (fun a => matchesSubcat a "s8"
        && decide (MIN_RELEVANCE_THRESHOLD ≤ a.relevance_score)) = true ∧
      select_top_articles_for_user pool8 prof8 none = .ok pool7 ∧
      pool7.all (fun a => !(matchesSubcat a "s8")) = true) := by
  refine ⟨by decide, by decide, by decide, by decide, by decide⟩

unseal Rat.mul Rat.inv Rat.add Rat.sub Rat.ofScientific String.mapAux in
/-- Claim C3 (code defect): the per-user loop of
generate_and_cache_bundles_for_all_users runs inside a single
try/except; one failing user (user 2, on whose profile the selector
raises) aborts the loop and rolls the session back, so no user of the
run gets a bundle — while the run containing only user 1 does cache a
bundle for user 1. -/
theorem C3_one_failure_aborts_all :
    generate_and_cache_bundles_for_all_users [] users123 pool7 none 0 5 = [] ∧
    generate_and_cache_bundles_for_all_users [] [⟨1, some prof7⟩] pool7 none 0 5 =
      [⟨1, 0, pool7, 5⟩] := by
  exact ⟨by decide, by decide⟩

theorem rowKeyMatches_iff {uid d : ℕ} {r : CacheRow} :
    rowKeyMatches uid d r = true ↔ r.user_id = uid ∧ r.news_date = d := by
  simp [rowKeyMatches]

theorem upsert_keyUnique (cache : List CacheRow) (uid d : ℕ) (b : List Article)
    (t : ℕ) (h : KeyUnique cache) : KeyUnique (upsert_user_cache cache uid d b t) := by
  unfold upsert_user_cache
  split
  · unfold KeyUnique at h ⊢
    rw [List.map_map]
    have : ∀ r ∈ cache,
        ((fun r => (r.user_id, r.news_date)) ∘ fun r =>
          if rowKeyMatches uid d r then (⟨r.user_id, r.news_date, b, t⟩ : CacheRow) else r) r
        = (r.user_id, r.news_date) := by
      intro r _
      simp only [Function.comp_apply]
      split <;> rfl
    rw [List.map_congr_left this]
    exact h
  · next hAny =>
    unfold KeyUnique at h ⊢
    rw [List.map_append]
    simp only [List.map_cons, List.map_nil]
    rw [List.nodup_append]
    refine ⟨h, List.nodup_singleton _, ?_⟩
    intro x hx hx2
    simp only [List.mem_singleton] at hx2
    subst hx2
    obtain ⟨r, hr, hrx⟩ := List.mem_map.1 hx
    have : rowKeyMatches uid d r = true :=
      rowKeyMatches_iff.2 ⟨congrArg Prod.fst hrx, congrArg Prod.snd hrx⟩
    exact (List.any_eq_false.1 (Bool.not_eq_true _ ▸ by simpa using hAny) r hr) this

theorem filter_map_update (uid d : ℕ) (b : List Article) (t : ℕ) :
    ∀ (cache : List CacheRow), KeyUnique cache →
      cache.any (rowKeyMatches uid d) = true →
      (cache.map fun r =>
        if rowKeyMatches uid d r then (⟨r.user_id, r.news_date, b, t⟩ : CacheRow) else r).filter
          (rowKeyMatches uid d) = [⟨uid, d, b, t⟩]
  | [], _, hAny => by simp at hAny
  | r :: rest, h, hAny => by
    have hkey : (r.user_id, r.news_date) ∉ rest.map fun x => (x.user_id, x.news_date) :=
      (List.nodup_cons.1 h).1
    have hrest : KeyUnique rest := (List.nodup_cons.1 h).2
    cases hm : rowKeyMatches uid d r with
    | true =>
      obtain ⟨hu, hd⟩ := rowKeyMatches_iff.1 hm
      subst hu hd
      simp only [List.map_cons, hm, if_pos rfl]
      rw [List.filter_cons]
      rw [if_pos (by exact rowKeyMatches_iff.2 ⟨rfl, rfl⟩)]
      have : (rest.map fun x =>
          if rowKeyMatches r.user_id r.news_date x then
            (⟨x.user_id, x.news_date, b, t⟩ : CacheRow) else x).filter
            (rowKeyMatches r.user_id r.news_date) = [] := by
        rw [List.filter_eq_nil]
        intro x hx
        obtain ⟨y, hy, hyx⟩ := List.mem_map.1 hx
        cases hym : rowKeyMatches r.user_id r.news_date y with
        | true =>
          obtain ⟨hu2, hd2⟩ := rowKeyMatches_iff.1 hym
          exact absurd (List.mem_map.2 ⟨y, hy, by rw [hu2, hd2]⟩) hkey
        | false =>
          have hync : ¬ (rowKeyMatches r.user_id r.news_date y = true) := by
            rw [hym]; decide
          rw [if_neg hync] at hyx
          rw [← hyx]
          exact hync
      rw [this]
      simp
    | false =>
      have hnc : ¬ (rowKeyMatches uid d r = true) := by rw [hm]; decide
      simp only [List.map_cons, if_neg hnc]
      rw [List.filter_cons, if_neg hnc]
      have hAny2 : rest.any (rowKeyMatches uid d) = true := by
        rcases List.any_eq_true.1 hAny with ⟨x, hx, hxm⟩
        rcases List.mem_cons.1 hx with hx1 | hx2
        · subst hx1; rw [hm] at hxm; exact absurd hxm (by simp)
        · exact List.any_eq_true.2 ⟨x, hx2, hxm⟩
      exact filter_map_update uid d b t rest hrest hAny2

theorem upsert_filter (cache : List CacheRow) (uid d : ℕ) (b : List Article) (t : ℕ)
    (h : KeyUnique cache) :
    (upsert_user_cache cache uid d b t).filter (rowKeyMatches uid d) =
      [⟨uid, d, b, t⟩] := by
  unfold upsert_user_cache
  split
  · next hAny => exact filter_map_update uid d b t cache h hAny
  · next hAny =>
    rw [List.filter_append]
    have h1 : cache.filter (rowKeyMatches uid d) = [] := by
      rw [List.filter_eq_nil]
      intro x hx
      exact fun hc => (List.any_eq_false.1 (by simpa using hAny) x hx) hc
    rw [h1]
    simp [rowKeyMatches]

/-- Claim C9: starting from a cache with unique (user, date) keys,
upserting a bundle twice for the same key preserves key uniqueness at
every step and leaves exactly one row for that key, holding the second
bundle and the second generation timestamp. -/
theorem C9_upsert_idempotent_key (cache : List CacheRow) (uid d : ℕ)
    (b1 b2 : List Article) (t1 t2 : ℕ) (h : KeyUnique cache) :
    KeyUnique (upsert_user_cache cache uid d b1 t1) ∧
    KeyUnique (upsert_user_cache (upsert_user_cache cache uid d b1 t1) uid d b2 t2) ∧
    (upsert_user_cache (upsert_user_cache cache uid d b1 t1) uid d b2 t2).filter
      (rowKeyMatches uid d) = [⟨uid, d, b2, t2⟩] := by
  have h1 := upsert_keyUnique cache uid d b1 t1 h
  exact ⟨h1, upsert_keyUnique _ uid d b2 t2 h1, upsert_filter _ uid d b2 t2 h1⟩

theorem C9_witness :
    KeyUnique (upsert_user_cache [] 1 2 pool7 10) ∧
    KeyUnique (upsert_user_cache (upsert_user_cache [] 1 2 pool7 10) 1 2 poolLow 20) ∧
    (upsert_user_cache (upsert_user_cache [] 1 2 pool7 10) 1 2 poolLow 20).filter
      (rowKeyMatches 1 2) = [⟨1, 2, poolLow, 20⟩] :=
  C9_upsert_idempotent_key [] 1 2 pool7 poolLow 10 20 (by simp [KeyUnique])

theorem dedup_go_sublist (hash : String → String) :
    ∀ (l : List RawArticle) (sT sH : List String),
      (deduplicate_articles_go hash l sT sH).Sublist l
  | [], _, _ => List.Sublist.refl _
  | a :: rest, sT, sH => by
    unfold deduplicate_articles_go
    split
    · exact List.Sublist.cons₂ a (dedup_go_sublist hash rest _ _)
    · exact List.Sublist.cons a (dedup_go_sublist hash rest sT sH)

theorem dedup_go_spec (hash : String → String) :
    ∀ (l : List RawArticle) (sT sH : List String),
      (∀ a ∈ deduplicate_articles_go hash l sT sH,
        15 < (dedupTitleKey a).length ∧ dedupTitleKey a ∉ sT ∧
          hash (dedupContentKey a) ∉ sH) ∧
      ((deduplicate_articles_go hash l sT sH).map dedupTitleKey).Nodup ∧
      ((deduplicate_articles_go hash l sT sH).map fun a =>
        hash (dedupContentKey a)).Nodup
  | [], _, _ => by simp [deduplicate_articles_go]
  | a :: rest, sT, sH => by
    unfold deduplicate_articles_go
    split
    · next hkeep =>
      simp only [Bool.and_eq_true, Bool.not_eq_true', List.elem_eq_mem,
        decide_eq_false_iff_not, decide_eq_true_eq] at hkeep
      obtain ⟨⟨htna, hhna⟩, hlen⟩ := hkeep
      obtain ⟨ihmem, ihtn, ihhn⟩ :=
        dedup_go_spec hash rest (sT ++ [dedupTitleKey a]) (sH ++ [hash (dedupContentKey a)])
      refine ⟨?_, ?_, ?_⟩
      · intro b hb
        rcases List.mem_cons.1 hb with hb1 | hb2
        · subst hb1; exact ⟨hlen, htna, hhna⟩
        · obtain ⟨hl, ht, hh⟩ := ihmem b hb2
          exact ⟨hl, fun hc => ht (List.mem_append.2 (Or.inl hc)),
            fun hc => hh (List.mem_append.2 (Or.inl hc))⟩
      · simp only [List.map_cons]
        rw [List.nodup_cons]
        refine ⟨?_, ihtn⟩
        intro hc
        obtain ⟨b, hb, hbt⟩ := List.mem_map.1 hc
        exact (ihmem b hb).2.1 (List.mem_append.2 (Or.inr (by simp [hbt])))
      · simp only [List.map_cons]
        rw [List.nodup_cons]
        refine ⟨?_, ihhn⟩
        intro hc
        obtain ⟨b, hb, hbh⟩ := List.mem_map.1 hc
        exact (ihmem b hb).2.2 (List.mem_append.2 (Or.inr (by simp [hbh])))
    · exact dedup_go_spec hash rest sT sH

theorem dedup_go_coverage (hash : String → String) :
    ∀ (l : List RawArticle) (sT sH : List String), ∀ a ∈ l,
      (dedupTitleKey a).length ≤ 15 ∨ dedupTitleKey a ∈ sT ∨
        hash (dedupContentKey a) ∈ sH ∨
        ∃ b ∈ deduplicate_articles_go hash l sT sH,
          dedupTitleKey b = dedupTitleKey a ∨
            hash (dedupContentKey b) = hash (dedupContentKey a)
  | [], _, _ => by simp
  | c :: rest, sT, sH => by
    intro a ha
    unfold deduplicate_articles_go
    rcases List.mem_cons.1 ha with ha1 | ha2
    · subst ha1
      split
      · exact Or.inr (Or.inr (Or.inr ⟨a, List.mem_cons_self a _, Or.inl rfl⟩))
      · next hkeep =>
        simp only [Bool.and_eq_true, Bool.not_eq_true', List.elem_eq_mem,
          decide_eq_false_iff_not, decide_eq_true_eq, not_and, not_lt] at hkeep
        by_cases h1 : dedupTitleKey a ∈ sT
        · exact Or.inr (Or.inl h1)
        · by_cases h2 : hash (dedupContentKey a) ∈ sH
          · exact Or.inr (Or.inr (Or.inl h2))
          · exact Or.inl (hkeep ⟨h1, h2⟩)
    · split
      · next hkeep =>
        rcases dedup_go_coverage hash rest (sT ++ [dedupTitleKey c])
            (sH ++ [hash (dedupContentKey c)]) a ha2 with h | h | h | h
        · exact Or.inl h
        · rcases List.mem_append.1 h with h1 | h1
          · exact Or.inr (Or.inl h1)
          · exact Or.inr (Or.inr (Or.inr ⟨c, List.mem_cons_self c _,
              Or.inl (List.mem_singleton.1 h1).symm⟩))
        · rcases List.mem_append.1 h with h1 | h1
          · exact Or.inr (Or.inr (Or.inl h1))
          · exact Or.inr (Or.inr (Or.inr ⟨c, List.mem_cons_self c _,
              Or.inr (List.mem_singleton.1 h1).symm⟩))
        · obtain ⟨b, hb, hbk⟩ := h
          exact Or.inr (Or.inr (Or.inr ⟨b, List.mem_cons_of_mem c hb, hbk⟩))
      · rcases dedup_go_coverage hash rest sT sH a ha2 with h | h | h | h
        · exact Or.inl h
        · exact Or.inr (Or.inl h)
        · exact Or.inr (Or.inr (Or.inl h))
        · obtain ⟨b, hb, hbk⟩ := h
          exact Or.inr (Or.inr (Or.inr ⟨b, hb, hbk⟩))

theorem dedup_go_first_occurrence (hash : String → String) :
    ∀ (pre : List RawArticle) (a : RawArticle) (post : List RawArticle)
      (sT sH : List String),
      (dedupTitleKey a).length ≤ 15 ∨ dedupTitleKey a ∈ sT ∨
        hash (dedupContentKey a) ∈ sH ∨
        a ∈ deduplicate_articles_go hash (pre ++ a :: post) sT sH ∨
        ∃ b ∈ deduplicate_articles_go hash (pre ++ a :: post) sT sH,
          b ∈ pre ∧ (dedupTitleKey b = dedupTitleKey a ∨
            hash (dedupContentKey b) = hash (dedupContentKey a))
  | [], a, post, sT, sH => by
    simp only [List.nil_append]
    unfold deduplicate_articles_go
    split
    · next hkeep =>
      exact Or.inr (Or.inr (Or.inr (Or.inl (List.mem_cons_self _ _))))
    · next hkeep =>
      simp only [Bool.and_eq_true, Bool.not_eq_true', List.elem_eq_mem,
        decide_eq_false_iff_not, decide_eq_true_eq, not_and, not_lt] at hkeep
      by_cases h1 : dedupTitleKey a ∈ sT
      · exact Or.inr (Or.inl h1)
      · by_cases h2 : hash (dedupContentKey a) ∈ sH
        · exact Or.inr (Or.inr (Or.inl h2))
        · exact Or.inl (hkeep ⟨h1, h2⟩)
  | c :: pre, a, post, sT, sH => by
    simp only [List.cons_append]
    unfold deduplicate_articles_go
    split
    · next hkeep =>
      rcases dedup_go_first_occurrence hash pre a post (sT ++ [dedupTitleKey c])
          (sH ++ [hash (dedupContentKey c)]) with h | h | h | h | h
      · exact Or.inl h
      · rcases List.mem_append.1 h with h1 | h1
        · exact Or.inr (Or.inl h1)
        · exact Or.inr (Or.inr (Or.inr (Or.inr ⟨c, List.mem_cons_self c _,
            List.mem_cons_self c pre, Or.inl (List.mem_singleton.1 h1).symm⟩)))
      · rcases List.mem_append.1 h with h1 | h1
        · exact Or.inr (Or.inr (Or.inl h1))
        · exact Or.inr (Or.inr (Or.inr (Or.inr ⟨c, List.mem_cons_self c _,
            List.mem_cons_self c pre, Or.inr (List.mem_singleton.1 h1).symm⟩)))
      · exact Or.inr (Or.inr (Or.inr (Or.inl (List.mem_cons_of_mem c h))))
      · obtain ⟨b, hbout, hbpre, hbk⟩ := h
        exact Or.inr (Or.inr (Or.inr (Or.inr ⟨b, List.mem_cons_of_mem c hbout,
          List.mem_cons_of_mem c hbpre, hbk⟩)))
    · next hkeep =>
      rcases dedup_go_first_occurrence hash pre a post sT sH with h | h | h | h | h
      · exact Or.inl h
      · exact Or.inr (Or.inl h)
      · exact Or.inr (Or.inr (Or.inl h))
      · exact Or.inr (Or.inr (Or.inr (Or.inl h)))
      · obtain ⟨b, hbout, hbpre, hbk⟩ := h
        exact Or.inr (Or.inr (Or.inr (Or.inr ⟨b, hbout,
          List.mem_cons_of_mem c hbpre, hbk⟩)))

/-- Claim C10: fetch-stage deduplication returns a subsequence of its
input in which every survivor has a lowercased, stripped title longer
than 15 characters, title keys are pairwise distinct, content-hash keys
are pairwise distinct, every input article is either short-titled or
represented in the output by an article sharing its title key or its
content-hash key, and the kept representative is the first eligible
occurrence in input order: a long-titled input article is either itself
kept or key-represented by a kept article from the strict input prefix
before it, so the output never keeps a later duplicate in place of an
earlier eligible one. -/
theorem C10_dedup_spec (hash : String → String) (articles : List RawArticle) :
    (deduplicate_articles hash articles).Sublist articles ∧
    (∀ a ∈ deduplicate_articles hash articles, 15 < (dedupTitleKey a).length) ∧
    ((deduplicate_articles hash articles).map dedupTitleKey).Nodup ∧
    ((deduplicate_articles hash articles).map fun a =>
      hash (dedupContentKey a)).Nodup ∧
    (∀ a ∈ articles, (dedupTitleKey a).length ≤ 15 ∨
      ∃ b ∈ deduplicate_articles hash articles,
        dedupTitleKey b = dedupTitleKey a ∨
          hash (dedupContentKey b) = hash (dedupContentKey a)) ∧
    (∀ (pre : List RawArticle) (a : RawArticle) (post : List RawArticle),
      articles = pre ++ a :: post →
        (dedupTitleKey a).length ≤ 15 ∨
        a ∈ deduplicate_articles hash articles ∨
        ∃ b ∈ deduplicate_articles hash articles, b ∈ pre ∧
          (dedupTitleKey b = dedupTitleKey a ∨
            hash (dedupContentKey b) = hash (dedupContentKey a))) := by
  obtain ⟨hmem, htn, hhn⟩ := dedup_go_spec hash articles [] []
  refine ⟨dedup_go_sublist hash articles [] [], fun a ha => (hmem a ha).1, htn, hhn,
    ?_, ?_⟩
  · intro a ha
    rcases dedup_go_coverage hash articles [] [] a ha with h | h | h | h
    · exact Or.inl h
    · exact absurd h (List.not_mem_nil _)
    · exact absurd h (List.not_mem_nil _)
    · exact Or.inr h
  · intro pre a post heq
    subst heq
    rcases dedup_go_first_occurrence hash pre a post [] [] with h | h | h | h | h
    · exact Or.inl h
    · exact absurd h (List.not_mem_nil _)
    · exact absurd h (List.not_mem_nil _)
    · exact Or.inr (Or.inl h)
    · exact Or.inr (Or.inr h)

theorem min_div1000 (a b : ℚ) : min a b / 1000 = min (a/1000) (b/1000) :=
  (min_div_div_right (by norm_num) a b).symm

theorem max_div1000 (a b : ℚ) : max a b / 1000 = max (a/1000) (b/1000) :=
  (max_div_div_right (by norm_num) a b).symm

theorem round_mono_rat {x y : ℚ} (h : x ≤ y) : round x ≤ round y := by
  rw [round_eq, round_eq]
  exact Int.floor_le_floor (by linarith)

theorem round3_thousandth (k : ℤ) : round3 ((k : ℚ) / 1000) = (k : ℚ) / 1000 := by
  unfold round3
  have h1 : (1000 : ℚ) * ((k : ℚ) / 1000) = (k : ℚ) := by field_simp
  rw [h1, round_intCast]

theorem round3_bounds {q : ℚ} (h0 : 0 ≤ q) (h1 : q ≤ 1) :
    0 ≤ round3 q ∧ round3 q ≤ 1 := by
  unfold round3
  have hl : (0 : ℤ) ≤ round (1000 * q) := by
    have := round_mono_rat (show (0 : ℚ) ≤ 1000 * q by linarith)
    simpa using this
  have hr : round (1000 * q) ≤ 1000 := by
    have := round_mono_rat (show 1000 * q ≤ (1000 : ℚ) by linarith)
    rw [show ((1000 : ℚ)) = ((1000 : ℤ) : ℚ) by norm_num, round_intCast] at this
    exact this
  constructor
  · positivity
  · rw [div_le_one (by norm_num)]
    exact_mod_cast hr

theorem thousandth_max (m : ℕ) :
    ∃ k : ℤ, max 0 (1/2 - (m : ℚ)/10) = (k : ℚ)/1000 := by
  refine ⟨max 0 (500 - 100 * m), ?_⟩
  push_cast
  rw [max_div1000]
  congr 1
  · norm_num
  · ring

theorem thousandth_min (m : ℕ) :
    ∃ k : ℤ, min 1 (1/2 + (m : ℚ)/10) = (k : ℚ)/1000 := by
  refine ⟨min 1000 (500 + 100 * m), ?_⟩
  push_cast
  rw [min_div1000]
  congr 1
  · norm_num
  · ring

/-- Claim C8: the preference update implements exactly the spec rule on
every stored preference (an exact multiple of 1/1000, where rounding to
3 decimals is the identity); N consecutive dislikes from neutral give
max(0, 0.5 - 0.1 N), N consecutive likes give min(1, 0.5 + 0.1 N); and
the preference always stays in [0, 1]. -/
theorem C8_preference_update :
    (∀ old : ℚ, (∃ k : ℤ, old = (k : ℚ)/1000) → ∀ r : ℤ,
      (0 < r → update_preference old r = min 1 (old + 0.1)) ∧
      (r < 0 → update_preference old r = max 0 (old - 0.1)) ∧
      (r = 0 → update_preference old r =
        if 0.5 < old then old - 0.05 else old + 0.05)) ∧
    (∀ n : ℕ, preference_after_dislikes n = max 0 (1/2 - (n : ℚ)/10)) ∧
    (∀ n : ℕ, preference_after_likes n = min 1 (1/2 + (n : ℚ)/10)) ∧
    (∀ old : ℚ, 0 ≤ old → old ≤ 1 → ∀ r : ℤ,
      0 ≤ update_preference old r ∧ update_preference old r ≤ 1) := by
  have hrule : ∀ old : ℚ, (∃ k : ℤ, old = (k : ℚ)/1000) → ∀ r : ℤ,
      (0 < r → update_preference old r = min 1 (old + 0.1)) ∧
      (r < 0 → update_preference old r = max 0 (old - 0.1)) ∧
      (r = 0 → update_preference old r =
        if 0.5 < old then old - 0.05 else old + 0.05) := by
    rintro old ⟨k, hk⟩ r
    subst hk
    refine ⟨fun hr => ?_, fun hr => ?_, fun hr => ?_⟩
    · rw [update_preference, if_pos hr]
      have h1 : min 1 ((k : ℚ)/1000 + 0.1) = ((min 1000 (k + 100) : ℤ) : ℚ)/1000 := by
        push_cast
        rw [min_div1000]
        congr 1
        · norm_num
        · ring
      rw [h1, round3_thousandth]
    · rw [update_preference, if_neg (by omega), if_pos hr]
      have h1 : max 0 ((k : ℚ)/1000 - 0.1) = ((max 0 (k - 100) : ℤ) : ℚ)/1000 := by
        push_cast
        rw [max_div1000]
        congr 1
        · norm_num
        · ring
      rw [h1, round3_thousandth]
    · subst hr
      rw [update_preference, if_neg (by omega), if_neg (by omega)]
      split
      · have h1 : (k : ℚ)/1000 - 0.05 = ((k - 50 : ℤ) : ℚ)/1000 := by
          push_cast; ring
        rw [h1, round3_thousandth]
      · have h1 : (k : ℚ)/1000 + 0.05 = ((k + 50 : ℤ) : ℚ)/1000 := by
          push_cast; ring
        rw [h1, round3_thousandth]
  have hdis : ∀ n : ℕ, preference_after_dislikes n = max 0 (1/2 - (n : ℚ)/10) := by
    intro n
    induction n with
    | zero =>
      simp only [preference_after_dislikes]
      norm_num
    | succ n ih =>
      rw [preference_after_dislikes, ih]
      obtain ⟨k, hk⟩ := thousandth_max n
      have := ((hrule _ ⟨k, hk⟩ (-1)).2.1 (by norm_num))
      rw [this]
      rcases le_or_lt (1/2 - (n : ℚ)/10) 0 with hc | hc
      · rw [max_eq_left hc]
        have hc2 : 1/2 - ((n : ℚ) + 1)/10 ≤ 0 := by linarith
        rw [max_eq_left (by norm_num), eq_comm, max_eq_left (by push_cast; linarith)]
      · rw [max_eq_right hc.le]
        push_cast
        congr 1
        ring
  have hlik : ∀ n : ℕ, preference_after_likes n = min 1 (1/2 + (n : ℚ)/10) := by
    intro n
    induction n with
    | zero =>
      simp only [preference_after_likes]
      norm_num
    | succ n ih =>
      rw [preference_after_likes, ih]
      obtain ⟨k, hk⟩ := thousandth_min n
      have := ((hrule _ ⟨k, hk⟩ 1).1 (by norm_num))
      rw [this]
      rcases le_or_lt (1 : ℚ) (1/2 + (n : ℚ)/10) with hc | hc
      · rw [min_eq_left hc]
        rw [eq_comm, min_eq_left (by push_cast; linarith), min_eq_left (by norm_num)]
      · rw [min_eq_right hc.le]
        push_cast
        congr 1
        ring
  refine ⟨hrule, hdis, hlik, ?_⟩
  intro old h0 h1 r
  rw [update_preference]
  split
  · exact round3_bounds (by positivity) (min_le_left _ _)
  · split
    · exact round3_bounds (le_max_left _ _) (max_le (by norm_num) (by linarith))
    · split
      · next hgt => exact round3_bounds (by linarith) (by linarith)
      · next hle => exact round3_bounds (by linarith) (by push_neg at hle; linarith)

theorem C8_witness :
    update_preference 0.5 1 = min 1 ((0.5 : ℚ) + 0.1) ∧
    preference_after_dislikes 5 = max 0 (1/2 - ((5 : ℕ) : ℚ)/10) ∧
    0 ≤ update_preference 0.5 (-1) ∧ update_preference 0.5 (-1) ≤ 1 :=
  ⟨(C8_preference_update.1 0.5 ⟨500, by norm_num⟩ 1).1 (by norm_num),
    C8_preference_update.2.1 5,
    (C8_preference_update.2.2.2 0.5 (by norm_num) (by norm_num) (-1)).1,
    (C8_preference_update.2.2.2 0.5 (by norm_num) (by norm_num) (-1)).2⟩

/-- Claim C6 (amended): record_feedback triggers an adaptation exactly
when the total accumulated history (including the new event) holds at
least 5 events — that is, on the 5th and on every later event, since
the history is never reset after an adaptation. -/
theorem C6_trigger_iff (s : AState) (f : FeedbackRec) :
    (record_feedback s f).2 = true ↔ 5 ≤ s.feedback_history.length + 1 := by
  simp only [record_feedback]
  split
  · next hc =>
    simpa using by simpa [List.length_append] using hc
  · next hc =>
    simp only [List.length_append, List.length_cons, List.length_nil] at hc
    simpa using by omega

unseal Rat.mul Rat.inv Rat.add Rat.sub Rat.ofScientific in
/-- Claim C6 (counterexample): six feedback events on a fresh store
trigger two adaptations (at the 5th and at the 6th event), not the one
adaptation the claim predicts for the first five accumulated events. -/
theorem C6_counterexample :
    (record_feedback_run ⟨[], get_default_multipliers, none⟩
      (List.replicate 6 ⟨1, 80⟩)).2 = 2 ∧
    (record_feedback_run ⟨[], get_default_multipliers, none⟩
      (List.replicate 6 ⟨1, 80⟩)).2 ≠ 1 := by
  exact ⟨by decide, by decide⟩

theorem clampMult_in_range (q : ℚ) : 0.5 ≤ clampMult q ∧ clampMult q ≤ 2 := by
  unfold clampMult
  constructor
  · exact le_max_left _ _
  · exact max_le (by norm_num) (min_le_left _ _)

theorem clampAll_in_range (m : Multipliers) : multsInRange (clampAll m) := by
  unfold multsInRange clampAll
  exact ⟨clampMult_in_range _, clampMult_in_range _, clampMult_in_range _,
    clampMult_in_range _, clampMult_in_range _, clampMult_in_range _⟩

theorem adapt_weights_in_range (hist : List FeedbackRec) (m : Multipliers)
    (h : multsInRange m) : multsInRange (adapt_weights hist m) := by
  unfold adapt_weights
  split
  · exact h
  · exact clampAll_in_range _

/-- Claim C7: on every state the adaptive weight store can reach — a
fresh store, any sequence of record_feedback calls, and any number of
reconstructions from the persisted file — the in-memory multipliers and
every persisted multiplier set lie in [0.5, 2.0]. -/
theorem C7_multipliers_in_range (s : AState) (h : AReach s) :
    multsInRange s.adaptive_multipliers ∧
      ∀ m, s.weights_file = some m → multsInRange m := by
  induction h with
  | init =>
    refine ⟨?_, fun m hm => by simp at hm⟩
    unfold multsInRange get_default_multipliers
    norm_num
  | record s f hr ih =>
    simp only [record_feedback]
    split
    · exact ⟨adapt_weights_in_range _ _ ih.1,
        fun m hm => by
          simp only [Option.some.injEq] at hm
          exact hm ▸ adapt_weights_in_range _ _ ih.1⟩
    · exact ⟨ih.1, ih.2⟩
  | reload s hr ih =>
    refine ⟨?_, ih.2⟩
    unfold load_adaptive_weights
    cases hf : s.weights_file with
    | none =>
      simp only [Option.getD_none]
      unfold multsInRange get_default_multipliers
      norm_num
    | some m =>
      simp only [Option.getD_some]
      exact ih.2 m hf

theorem C7_witness :
    multsInRange (AState.mk [] get_default_multipliers none).adaptive_multipliers :=
  (C7_multipliers_in_range _ AReach.init).1

theorem clamp01_mem (x : ℝ) : 0 ≤ clamp x 0 1 ∧ clamp x 0 1 ≤ 1 := by
  unfold clamp
  exact ⟨le_max_left _ _, max_le (by norm_num) (min_le_left _ _)⟩

theorem round_mono_real {x y : ℝ} (h : x ≤ y) : round x ≤ round y := by
  rw [round_eq, round_eq]
  exact Int.floor_le_floor (by linarith)

theorem round_clamp100_bounds (x : ℝ) :
    0 ≤ round (100 * clamp x 0 1) ∧ round (100 * clamp x 0 1) ≤ 100 := by
  obtain ⟨h0, h1⟩ := clamp01_mem x
  constructor
  · have := round_mono_real (show (0:ℝ) ≤ 100 * clamp x 0 1 by nlinarith)
    simpa using this
  · have := round_mono_real (show 100 * clamp x 0 1 ≤ (100:ℝ) by nlinarith)
    rw [show ((100:ℝ)) = ((100:ℤ):ℝ) by norm_num, round_intCast] at this
    exact this

/-- Claim C2 (amended): the relevance scorer adjust_priority is a pure
function of the classification, the user, the news text, and the
resolved weights, and always returns an integer score in [0, 100] (the
spec states a float in [0, 1]; the code returns the 0-100 integer
int(round(100 * clamp(p_cal, 0, 1)))). -/
theorem C2_score_range (c : Classification) (u : ScoringUser)
    (news_text : Option String) (w : RankerWeights) :
    0 ≤ adjust_priority c u news_text w ∧ adjust_priority c u news_text w ≤ 100 := by
  simp only [adjust_priority]
  exact round_clamp100_bounds _

unseal String.mapAux in
theorem c2_crit_false : criticality_signal "" none = false := by decide

unseal String.mapAux in
theorem c2_loc_false : locale_match "" none none none = false := by decide

theorem logit_at_99 : logit (clamp ((99 : ℝ)/100) 0.01 0.99) = Real.log 99 := by
  have h1 : clamp ((99 : ℝ)/100) 0.01 0.99 = 99/100 := by
    unfold clamp
    rw [min_eq_right (by norm_num : (99:ℝ)/100 ≤ 0.99),
      max_eq_right (by norm_num : (0.01:ℝ) ≤ 99/100)]
  rw [h1]
  simp only [logit]
  rw [max_eq_left (by norm_num : (0.000001:ℝ) ≤ 99/100),
    min_eq_left (by norm_num : (99:ℝ)/100 ≤ 1 - 0.000001)]
  norm_num

theorem sigmoid_gt_half {z : ℝ} (hz : 0 < z) :
    1/2 < sigmoid z ∧ sigmoid z ≤ 1 ∧ 0 < sigmoid z := by
  unfold sigmoid
  rw [if_pos hz.le]
  have he1 : Real.exp (-z) < 1 := Real.exp_lt_one_iff.2 (by linarith)
  have hep : 0 < Real.exp (-z) := Real.exp_pos _
  refine ⟨?_, ?_, ?_⟩
  · rw [show (1:ℝ)/2 = 1/2 from rfl]
    rw [div_lt_div_iff (by norm_num) (by linarith)]
    linarith
  · rw [div_le_one (by linarith)]
    linarith
  · positivity

theorem rpow_ge_self {p : ℝ} (h0 : 0 < p) (h1 : p ≤ 1) : p ≤ p ^ (0.95 : ℝ) := by
  have := Real.rpow_le_rpow_of_exponent_ge h0 h1 (show (0.95:ℝ) ≤ 1 by norm_num)
  rwa [Real.rpow_one] at this

theorem score_ge_50 {z : ℝ} (hz : 0 < z) :
    (50 : ℤ) ≤ round (100 * clamp (sigmoid z ^ (0.95 : ℝ)) 0 1) := by
  obtain ⟨hp1, hp2, hp3⟩ := sigmoid_gt_half hz
  have hcal : 1/2 ≤ sigmoid z ^ (0.95 : ℝ) :=
    le_trans hp1.le (rpow_ge_self hp3 hp2)
  have hclamp : 1/2 ≤ clamp (sigmoid z ^ (0.95 : ℝ)) 0 1 := by
    unfold clamp
    exact le_trans (le_min (by norm_num) hcal) (le_max_right _ _)
  have := round_mono_real (show (50:ℝ) ≤ 100 * clamp (sigmoid z ^ (0.95:ℝ)) 0 1 by linarith)
  rw [show ((50:ℝ)) = ((50:ℤ):ℝ) by norm_num, round_intCast] at this
  exact this

unseal String.mapAux in
/-- Claim C2 (counterexample): on a concrete classification with
importance 99 and confidence 0.7 the scorer returns an integer of at
least 50, which is greater than 1 — the returned relevance score is an
integer on the 0-100 scale and does not lie in [0, 1]. -/
theorem C2_counterexample :
    1 < adjust_priority c2cls c2user none defaultRankerWeights := by
  have hmain : ∀ zz : ℝ, 0 < zz →
      (1 : ℤ) < round (100 * clamp (sigmoid zz ^ (0.95 : ℝ)) 0 1) := by
    intro zz hz
    have := score_ge_50 hz
    omega
  simp only [adjust_priority, c2cls, c2user, defaultRankerWeights,
    match_category_interest, List.any_nil, c2_crit_false, c2_loc_false,
    show ("general" == "sports") = false by decide,
    show ("general" == "economy_finance") = false by decide,
    show ("general" == "technology_ai_science") = false by decide,
    Bool.false_and, Bool.false_eq_true, if_false, Option.map_none']
  apply hmain
  rw [show ((99:ℤ):ℝ) = (99:ℝ) by norm_num]
  rw [logit_at_99]
  have hlog : 1 ≤ Real.log 99 :=
    (Real.le_log_iff_exp_le (by norm_num)).2
      (le_trans Real.exp_one_lt_d9.le (by norm_num))
  nlinarith

theorem C10_witness :
    (dedupTitleKey ⟨"A sufficiently long title", "body text"⟩).length ≤ 15 ∨
    (⟨"A sufficiently long title", "body text"⟩ : RawArticle) ∈
      deduplicate_articles id [⟨"A sufficiently long title", "body text"⟩] ∨
    ∃ b ∈ deduplicate_articles id [⟨"A sufficiently long title", "body text"⟩],
      b ∈ ([] : List RawArticle) ∧
        (dedupTitleKey b = dedupTitleKey ⟨"A sufficiently long title", "body text"⟩ ∨
          id (dedupContentKey b) =
            id (dedupContentKey (⟨"A sufficiently long title", "body text"⟩ : RawArticle))) :=
  (C10_dedup_spec id [⟨"A sufficiently long title", "body text"⟩]).2.2.2.2.2
    [] ⟨"A sufficiently long title", "body text"⟩ [] rfl
